import Mathlib

/-!
Verification of the TLV1 arithmetic-protocol core of the tcp1 crate.

The embedding follows the Rust sources:
  - src/tlv.rs        : TlvType, TlvError, Tlv, Tlv::encode, TryFrom for Tlv,
                        TlvIterator
  - src/operation.rs  : OperationError, Operation, Operation::reduce,
                        Operation::encode, TryFrom of Tlv for Operation,
                        FromStr for Operation
  - src/lib.rs        : TCPLibError, Answer, TryFrom of Tlv for Answer,
                        Answer::encode

Wire bytes are modelled as Nat values below 256 in a List Nat.  Signed 8-bit
values are modelled as Int together with the two reinterpretation maps
byteToI8 and i8ToByte.  Rust operations that can panic are modelled by an
explicit panic constructor in the result type; in particular the u8 addition
bytes[1] + 2 in the TLV decoder overflows for length bytes 254 and 255
(debug builds panic at the add, release builds panic at the out-of-range
slice bytes[2..(bytes[1]+2) mod 256], so both profiles panic there), and the
signed 8-bit division and remainder panic at the operand pair (-128, -1).
-/

/-- Tag codes, from enum TlvType in src/tlv.rs. -/
inductive TlvType where
  | Sum
  | Sub
  | Mul
  | Div
  | Rem
  | Fact
  | Numi64
deriving DecidableEq, Repr

/-- The numeric value of each tag, from the discriminants in src/tlv.rs. -/
def tagVal : TlvType → Nat
  | .Sum => 1
  | .Sub => 2
  | .Mul => 3
  | .Div => 4
  | .Rem => 5
  | .Fact => 6
  | .Numi64 => 16

/-- Error kinds of enum TlvError in src/tlv.rs. -/
inductive TlvError where
  | TagUnknown (b : Nat)
  | WrongFormat
  | ExcessiveLength (n : Nat)
deriving DecidableEq, Repr

/-- TryFrom of u8 for TlvType in src/tlv.rs. -/
def tagOfByte (b : Nat) : Except TlvError TlvType :=
  if b = 1 then .ok .Sum
  else if b = 2 then .ok .Sub
  else if b = 3 then .ok .Mul
  else if b = 4 then .ok .Div
  else if b = 5 then .ok .Rem
  else if b = 6 then .ok .Fact
  else if b = 16 then .ok .Numi64
  else .error (.TagUnknown b)

/-- The struct Tlv of src/tlv.rs: a tag, the length byte, and the payload
view.  The borrowed slice is modelled as the list of its byte values. -/
structure TlvRec where
  tag : TlvType
  length : Nat
  data : List Nat
deriving DecidableEq, Repr

/-- Result of running the TLV decoder, with an explicit constructor for a
Rust panic. -/
inductive TlvResult where
  | ok (t : TlvRec)
  | err (e : TlvError)
  | panic
deriving DecidableEq, Repr

/-- Tlv::encode in src/tlv.rs: the payload length must fit in one byte. -/
def tlvEncode (tag : TlvType) (data : List Nat) : Except TlvError (List Nat) :=
  if data.length ≤ 255 then .ok (tagVal tag :: data.length :: data)
  else .error (.ExcessiveLength data.length)

/-- Models the .unwrap() applied to Tlv::encode by Operation::encode and
Answer::encode in the sources; all payloads there have length 1, 2 or 8,
so the error branch is unreachable at those call sites. -/
def tlvEncodeUnwrap (tag : TlvType) (data : List Nat) : List Nat :=
  match tlvEncode tag data with
  | .ok v => v
  | .error _ => []

/-- TryFrom of a byte slice for Tlv in src/tlv.rs.  The source guard is
bytes.len() >= (bytes[1] + 2).into() where bytes[1] + 2 is computed at u8
width: for a length byte of 254 or 255 the addition overflows and the
decoder panics (at the add with overflow checks, at the slice
bytes[2..(bytes[1]+2) mod 256] without them), so that case is modelled as
panic.  Otherwise a too-short buffer is WrongFormat, an unrecognized tag
byte is TagUnknown, and on success the record borrows the next
bytes[1] payload bytes. -/
def tlvTryFrom : List Nat → TlvResult
  | t :: l :: rest =>
    if 256 ≤ l + 2 then .panic
    else if l ≤ rest.length then
      match tagOfByte t with
      | .ok tag => .ok ⟨tag, l, rest.take l⟩
      | .error e => .err e
    else .err .WrongFormat
  | _ => .err .WrongFormat

/-- One fuel-indexed pass of the TlvIterator of src/tlv.rs: decode at the
cursor, yield and advance by 2 + length on success, stop silently on any
decode error.  A decode panic aborts the whole traversal, modelled as none.
Each successful step consumes at least 2 bytes, so fuel equal to the buffer
length is always sufficient. -/
def tlvIterGo : Nat → List Nat → Option (List TlvRec)
  | 0, _ => some []
  | fuel + 1, buf =>
    match tlvTryFrom buf with
    | .ok t =>
      match tlvIterGo fuel (buf.drop (2 + t.length)) with
      | some l => some (t :: l)
      | none => none
    | .err _ => some []
    | .panic => none

/-- Collecting the TlvIterator of src/tlv.rs over a whole buffer. -/
def tlvIterate (buf : List Nat) : Option (List TlvRec) :=
  tlvIterGo buf.length buf

/-- Error kinds of enum OperationError in src/operation.rs.  The payloads
carried from the underlying std error types are dropped. -/
inductive OperationError where
  | UnsupportedOperation (s : String)
  | Parse
  | NotEnoughData
  | InvalidParameter
  | ParseIntError
  | WrongDomain
  | Generic
deriving DecidableEq, Repr

deriving instance DecidableEq for Except

/-- Reinterpret a byte as a signed 8-bit value, the u8-to-i8 cast of
src/operation.rs. -/
def byteToI8 (b : Nat) : Int :=
  if b < 128 then (b : Int) else (b : Int) - 256

/-- Reinterpret a signed 8-bit value as a byte, the i8-to-u8 cast used by
OperationData::encode in src/operation.rs. -/
def i8ToByte (a : Int) : Nat :=
  (a % 256).toNat

/-- The enum Operation of src/operation.rs.  Sum, Sub and Mul carry two
signed 8-bit operands, Div and Rem carry a signed 8-bit operand and a
NonZeroI8 divisor (the non-zero constraint lives at the construction
boundaries, so the constructor itself stores a plain Int), and Fact carries
one signed 8-bit operand. -/
inductive Operation where
  | Sum (a b : Int)
  | Sub (a b : Int)
  | Mul (a b : Int)
  | Div (a b : Int)
  | Rem (a b : Int)
  | Fact (a : Int)
deriving DecidableEq, Repr

/-- Result of Operation::reduce, with an explicit constructor for a Rust
panic. -/
inductive ReduceResult where
  | ok (n : Int)
  | err (e : OperationError)
  | panic
deriving DecidableEq, Repr

def i64max : Int := 9223372036854775807

def i64min : Int := -9223372036854775808

/-- i64::saturating_mul from the factorial branch of Operation::reduce. -/
def satMul (x y : Int) : Int :=
  if i64max < x * y then i64max
  else if x * y < i64min then i64min
  else x * y

/-- The Int values 1, 2, ..., n, the iterator 1..=(a as i64) of
Operation::reduce. -/
def factRange (n : Nat) : List Int :=
  (List.range' 1 n).map fun k => (k : Int)

/-- Operation::reduce in src/operation.rs.  Sum, Sub and Mul are computed
at i16 width, which cannot overflow for 8-bit operands, so plain Int
arithmetic is exact.  Div and Rem are computed at i8 width: Rust division
and remainder panic on a zero divisor (excluded by NonZeroI8 at every
construction site) and on the overflowing pair (-128, -1), in debug and
release builds alike.  Fact of 0 is 1; Fact of a positive operand folds
i64::saturating_mul over 1..=a, where the Rust reduce seeds the fold with
the first element 1 and satMul 1 1 = 1, so a fold from initial value 1 is
the same; Fact of a negative operand is the WrongDomain error. -/
def reduce : Operation → ReduceResult
  | .Sum a b => .ok (a + b)
  | .Sub a b => .ok (a - b)
  | .Mul a b => .ok (a * b)
  | .Div a b =>
    if b = 0 ∨ (a = -128 ∧ b = -1) then .panic else .ok (a.tdiv b)
  | .Rem a b =>
    if b = 0 ∨ (a = -128 ∧ b = -1) then .panic else .ok (a.tmod b)
  | .Fact a =>
    if a = 0 then .ok 1
    else if 0 < a then .ok ((factRange a.toNat).foldl satMul 1)
    else .err .WrongDomain

/-- Operation::encode in src/operation.rs: each variant encodes its operand
bytes under its tag through Tlv::encode(..).unwrap(). -/
def opEncode : Operation → List Nat
  | .Sum a b => tlvEncodeUnwrap .Sum [i8ToByte a, i8ToByte b]
  | .Sub a b => tlvEncodeUnwrap .Sub [i8ToByte a, i8ToByte b]
  | .Mul a b => tlvEncodeUnwrap .Mul [i8ToByte a, i8ToByte b]
  | .Div a b => tlvEncodeUnwrap .Div [i8ToByte a, i8ToByte b]
  | .Rem a b => tlvEncodeUnwrap .Rem [i8ToByte a, i8ToByte b]
  | .Fact a => tlvEncodeUnwrap .Fact [i8ToByte a]

/-- TryFrom of Tlv for Operation in src/operation.rs: dispatch on tag and
length byte; the slice-to-array conversion fails with NotEnoughData when
the payload does not have exactly the required number of bytes; for Div and
Rem the NonZeroI8 conversion of the second operand fails with
InvalidParameter on zero; Fact accepts any payload byte, reinterpreted as
i8; everything else is the Generic error. -/
def operationTryFrom (t : TlvRec) : Except OperationError Operation :=
  match t.tag with
  | .Sum =>
    if t.length = 2 then
      match t.data with
      | [x, y] => .ok (.Sum (byteToI8 x) (byteToI8 y))
      | _ => .error .NotEnoughData
    else .error .Generic
  | .Sub =>
    if t.length = 2 then
      match t.data with
      | [x, y] => .ok (.Sub (byteToI8 x) (byteToI8 y))
      | _ => .error .NotEnoughData
    else .error .Generic
  | .Mul =>
    if t.length = 2 then
      match t.data with
      | [x, y] => .ok (.Mul (byteToI8 x) (byteToI8 y))
      | _ => .error .NotEnoughData
    else .error .Generic
  | .Div =>
    if t.length = 2 then
      match t.data with
      | [x, y] =>
        if byteToI8 y = 0 then .error .InvalidParameter
        else .ok (.Div (byteToI8 x) (byteToI8 y))
      | _ => .error .NotEnoughData
    else .error .Generic
  | .Rem =>
    if t.length = 2 then
      match t.data with
      | [x, y] =>
        if byteToI8 y = 0 then .error .InvalidParameter
        else .ok (.Rem (byteToI8 x) (byteToI8 y))
      | _ => .error .NotEnoughData
    else .error .Generic
  | .Fact =>
    if t.length = 1 then
      match t.data with
      | [x] => .ok (.Fact (byteToI8 x))
      | _ => .error .NotEnoughData
    else .error .Generic
  | .Numi64 => .error .Generic

/-- The code points matched by the regex whitespace class, Unicode
White_Space, as used around tokens in the FromStr regex of
src/operation.rs. -/
def wsCodes : List Nat :=
  [9, 10, 11, 12, 13, 32, 0x85, 0xA0, 0x1680, 0x2000, 0x2001, 0x2002, 0x2003,
   0x2004, 0x2005, 0x2006, 0x2007, 0x2008, 0x2009, 0x200A, 0x2028, 0x2029,
   0x202F, 0x205F, 0x3000]

def isWsC (c : Char) : Bool :=
  wsCodes.contains c.toNat

/-- The operator class of the FromStr regex in src/operation.rs. -/
def isOpC (c : Char) : Bool :=
  c = '+' || c = '-' || c = '*' || c = '×' || c = 'x' || c = '/' || c = '÷' ||
  c = '%' || c = '!'

def dropWs (l : List Char) : List Char :=
  l.dropWhile isWsC

/-- The integer-token fragment of the FromStr regex of src/operation.rs: an
optional minus sign followed by one or more decimal digits, matched
greedily.  Returns the token and the rest of the input, or none when the
input does not start with such a token. -/
def takeInt (l : List Char) : Option (List Char × List Char) :=
  if l.head? = some '-' then
    if l.tail.takeWhile Char.isDigit = [] then none
    else some ('-' :: l.tail.takeWhile Char.isDigit, l.tail.dropWhile Char.isDigit)
  else
    if l.takeWhile Char.isDigit = [] then none
    else some (l.takeWhile Char.isDigit, l.dropWhile Char.isDigit)

/-- The capture groups of the anchored FromStr regex of src/operation.rs:
optional whitespace, a first integer token, optional whitespace, one
operator character from the class, optional whitespace, an optional second
integer token, optional whitespace, end of input.  The pattern is
deterministic: a shorter first group would put a digit where the operator
class must match, and an omitted present third group would leave its digits
before the anchored end, so greedy matching is the only successful parse
and backtracking never changes the captures. -/
def regexCapture (s : List Char) : Option (List Char × Char × Option (List Char)) :=
  match takeInt (dropWs s) with
  | none => none
  | some (tokA, r1) =>
    match dropWs r1 with
    | [] => none
    | c :: r3 =>
      if isOpC c then
        match takeInt (dropWs r3) with
        | some (tokB, r5) =>
          if dropWs r5 = [] then some (tokA, c, some tokB) else none
        | none =>
          if dropWs r3 = [] then some (tokA, c, none) else none
      else none

def digitVal (c : Char) : Nat :=
  c.toNat - 48

def digitsToNat (ds : List Char) : Nat :=
  ds.foldl (fun acc c => 10 * acc + digitVal c) 0

/-- i8::from_str applied to a matched integer token: an optional minus sign
and decimal digits; values outside the signed 8-bit range fail with the
integer-parse error. -/
def parseI8 : List Char → Except OperationError Int
  | [] => .error .ParseIntError
  | c :: r =>
    if c = '-' then
      if r = [] then .error .ParseIntError
      else if digitsToNat r ≤ 128 then .ok (-(digitsToNat r : Int))
      else .error .ParseIntError
    else
      if digitsToNat (c :: r) ≤ 127 then .ok ((digitsToNat (c :: r) : Int))
      else .error .ParseIntError

/-- FromStr for Operation in src/operation.rs: match the regex (Parse error
on failure), parse the first and the optional second integer token (the
second defaults to 0 when absent; an integer-parse error propagates before
the operator dispatch), then dispatch on the operator with arity guards.
An arm whose guard fails falls through to the catch-all arm that reports
UnsupportedOperation with the operator text; the factorial arm also
requires a non-negative first operand.  Div and Rem convert the second
operand to NonZeroI8, failing with InvalidParameter on zero. -/
def fromStr (s : List Char) : Except OperationError Operation :=
  match regexCapture s with
  | none => .error .Parse
  | some (tokA, c, tokB?) =>
    match parseI8 tokA with
    | .error e => .error e
    | .ok a =>
      match (match tokB? with | some t => parseI8 t | none => .ok 0) with
      | .error e => .error e
      | .ok b =>
        if c = '+' then
          if tokB?.isSome then .ok (.Sum a b)
          else .error (.UnsupportedOperation "+")
        else if c = '-' then
          if tokB?.isSome then .ok (.Sub a b)
          else .error (.UnsupportedOperation "-")
        else if c = '*' ∨ c = '×' ∨ c = 'x' then
          if tokB?.isSome then .ok (.Mul a b)
          else .error (.UnsupportedOperation (String.mk [c]))
        else if c = '/' ∨ c = '÷' then
          if tokB?.isSome then
            if b = 0 then .error .InvalidParameter else .ok (.Div a b)
          else .error (.UnsupportedOperation (String.mk [c]))
        else if c = '%' then
          if tokB?.isSome then
            if b = 0 then .error .InvalidParameter else .ok (.Rem a b)
          else .error (.UnsupportedOperation "%")
        else if c = '!' then
          if tokB? = none ∧ 0 ≤ a then .ok (.Fact a)
          else .error (.UnsupportedOperation "!")
        else .error (.UnsupportedOperation (String.mk [c]))

/-- Error kinds of enum TCPLibError in src/lib.rs (payloads dropped). -/
inductive TCPLibError where
  | UnsupportedOperation (s : String)
  | Parse
  | NotEnoughData
  | InvalidParameter
  | ParseIntError
  | Generic
deriving DecidableEq, Repr

/-- i64::to_be_bytes from Answer::encode in src/lib.rs: the eight
big-endian bytes of the value taken modulo 2^64. -/
def i64ToBeBytes (n : Int) : List Nat :=
  let u := (n % (2 ^ 64 : Int)).toNat
  [u / 2 ^ 56 % 256, u / 2 ^ 48 % 256, u / 2 ^ 40 % 256, u / 2 ^ 32 % 256,
   u / 2 ^ 24 % 256, u / 2 ^ 16 % 256, u / 2 ^ 8 % 256, u % 256]

/-- i64::from_be_bytes from the Answer decoder in src/lib.rs, on a payload
of exactly eight bytes. -/
def beBytesToI64 (l : List Nat) : Int :=
  let u : Nat := l.foldl (fun acc b => 256 * acc + b) 0
  if (u : Int) < 2 ^ 63 then (u : Int) else (u : Int) - 2 ^ 64

/-- Answer::encode in src/lib.rs:
Tlv::encode(Numi64, num.to_be_bytes()).unwrap(). -/
def answerEncode (n : Int) : List Nat :=
  tlvEncodeUnwrap .Numi64 (i64ToBeBytes n)

/-- TryFrom of Tlv for Answer in src/lib.rs: requires tag Numi64 and length
byte 8, else the Generic error; the slice-to-array conversion fails with
NotEnoughData when the payload does not have exactly eight bytes. -/
def answerTryFrom (t : TlvRec) : Except TCPLibError Int :=
  if t.tag = .Numi64 ∧ t.length = 8 then
    if t.data.length = 8 then .ok (beBytesToI64 t.data)
    else .error .NotEnoughData
  else .error .Generic

/-- Whether an operation carries a non-zero divisor; trivially true for the
variants that do not divide. -/
def divisorNonzero : Operation → Prop
  | .Div _ b => b ≠ 0
  | .Rem _ b => b ≠ 0
  | _ => True

def inI8 (a : Int) : Prop :=
  -128 ≤ a ∧ a ≤ 127

/-- The valid operand assignments of each variant: signed 8-bit operands
everywhere, with a non-zero divisor for Div and Rem. -/
def validOp : Operation → Prop
  | .Sum a b => inI8 a ∧ inI8 b
  | .Sub a b => inI8 a ∧ inI8 b
  | .Mul a b => inI8 a ∧ inI8 b
  | .Div a b => inI8 a ∧ inI8 b ∧ b ≠ 0
  | .Rem a b => inI8 a ∧ inI8 b ∧ b ≠ 0
  | .Fact a => inI8 a

/-- The wire bytes of one record as produced by Tlv::encode for a payload
of at most 255 bytes. -/
def encBytes (t : TlvType) (d : List Nat) : List Nat :=
  tagVal t :: d.length :: d

/-- Written from the words of the specification, for comparison with the
code: the factorial as the product 1 times 2 times ... times a, computed
with saturating multiplication. -/
def specSatFact : Nat → Int
  | 0 => 1
  | n + 1 => satMul (specSatFact n) ((n : Int) + 1)

/-- True when the input does not continue with a digit, so that a greedy
integer token cannot extend into it. -/
def headNotDigit (l : List Char) : Bool :=
  l.head?.all fun c => !c.isDigit

/-- The shape of a token matched by the integer fragment of the regex: an
optional minus sign followed by one or more decimal digits. -/
def isIntTok (tok : List Char) : Prop :=
  (tok.head? = some '-' ∧ tok.tail ≠ [] ∧ ∀ c ∈ tok.tail, c.isDigit = true) ∨
  (tok ≠ [] ∧ ∀ c ∈ tok, c.isDigit = true)

instance (tok : List Char) : Decidable (isIntTok tok) := by
  unfold isIntTok
  infer_instance

theorem byteToI8_i8ToByte {a : Int} (h1 : -128 ≤ a) (h2 : a ≤ 127) :
    byteToI8 (i8ToByte a) = a := by
  unfold byteToI8 i8ToByte
  split <;> omega

theorem tagOfByte_tagVal (t : TlvType) : tagOfByte (tagVal t) = .ok t := by
  cases t <;> rfl

theorem take_length_append {α : Type} (l r : List α) :
    (l ++ r).take l.length = l := by
  induction l with
  | nil => rfl
  | cons a l ih => simp [ih]

theorem drop_length_append {α : Type} (l r : List α) :
    (l ++ r).drop l.length = r := by
  induction l with
  | nil => rfl
  | cons a l ih => simp [ih]

/-- Decoding a buffer that starts with a well-formed encoded record yields
exactly that record, when its length byte stays below 254. -/
theorem tlvTryFrom_encoded (t : TlvType) (d rest : List Nat)
    (hd : d.length ≤ 253) :
    tlvTryFrom (tagVal t :: d.length :: (d ++ rest)) = .ok ⟨t, d.length, d⟩ := by
  simp only [tlvTryFrom]
  rw [if_neg (by omega), if_pos (by simp), tagOfByte_tagVal]
  simp [take_length_append]

theorem tlvTryFrom_ok_len {buf : List Nat} {t : TlvRec}
    (h : tlvTryFrom buf = .ok t) : 2 ≤ buf.length := by
  match buf with
  | [] => simp [tlvTryFrom] at h
  | [x] => simp [tlvTryFrom] at h
  | x :: y :: rest => simp

theorem tlvIterGo_err {fuel : Nat} {buf : List Nat} {e : TlvError}
    (h : tlvTryFrom buf = .err e) : tlvIterGo fuel buf = some [] := by
  cases fuel with
  | zero => rfl
  | succ f => simp [tlvIterGo, h]

/-- Any strict prefix of an encoded record with length byte at most 253 is
rejected with WrongFormat by the decoder. -/
theorem tlvTryFrom_truncated (t : TlvType) (d : List Nat) (k : Nat)
    (hd : d.length ≤ 253) (hk : k < 2 + d.length) :
    tlvTryFrom ((encBytes t d).take k) = .err .WrongFormat := by
  match k with
  | 0 => rfl
  | 1 => rfl
  | k + 2 =>
    simp only [encBytes, List.take_succ_cons]
    simp only [tlvTryFrom]
    rw [if_neg (by omega), if_neg]
    simp only [List.length_take]
    omega

theorem tlvIterGo_ok {f : Nat} {buf : List Nat} {t : TlvRec}
    (h : tlvTryFrom buf = .ok t) :
    tlvIterGo (f + 1) buf =
      match tlvIterGo f (buf.drop (2 + t.length)) with
      | some l => some (t :: l)
      | none => none := by
  simp [tlvIterGo, h]

/-- Iterating a buffer made of encoded records followed by a fragment the
decoder rejects with WrongFormat yields exactly the records, in order,
whenever every record keeps its length byte below 254 and the fuel covers
the buffer. -/
theorem tlvIterGo_stream (rs : List (TlvType × List Nat)) :
    ∀ (frag : List Nat) (fuel : Nat),
      (∀ r ∈ rs, r.2.length ≤ 253) →
      tlvTryFrom frag = .err .WrongFormat →
      ((rs.map fun r => encBytes r.1 r.2).flatten ++ frag).length ≤ fuel →
      tlvIterGo fuel ((rs.map fun r => encBytes r.1 r.2).flatten ++ frag) =
        some (rs.map fun r => (⟨r.1, r.2.length, r.2⟩ : TlvRec)) := by
  induction rs with
  | nil =>
    intro frag fuel _ hfrag _
    simpa using tlvIterGo_err hfrag
  | cons r rs ih =>
    obtain ⟨t, d⟩ := r
    intro frag fuel hlen hfrag hfuel
    have hbuf :
        (((t, d) :: rs).map fun r => encBytes r.1 r.2).flatten ++ frag =
          tagVal t :: d.length ::
            (d ++ ((rs.map fun r => encBytes r.1 r.2).flatten ++ frag)) := by
      simp [encBytes]
    rw [hbuf] at hfuel ⊢
    cases fuel with
    | zero => simp at hfuel
    | succ f =>
      rw [tlvIterGo_ok (tlvTryFrom_encoded t d _ (hlen (t, d) (by simp)))]
      have hdrop :
          (tagVal t :: d.length ::
              (d ++ ((rs.map fun r => encBytes r.1 r.2).flatten ++ frag))).drop
              (2 + (⟨t, d.length, d⟩ : TlvRec).length) =
            (rs.map fun r => encBytes r.1 r.2).flatten ++ frag := by
        show (tagVal t :: d.length ::
              (d ++ ((rs.map fun r => encBytes r.1 r.2).flatten ++ frag))).drop
              (2 + d.length) =
            (rs.map fun r => encBytes r.1 r.2).flatten ++ frag
        have h2 : 2 + d.length = d.length + 2 := by omega
        rw [h2]
        simp only [List.drop_succ_cons]
        exact drop_length_append d _
      rw [hdrop]
      have hflen :
          ((rs.map fun r => encBytes r.1 r.2).flatten ++ frag).length ≤ f := by
        simp only [List.length_cons, List.length_append] at hfuel ⊢
        omega
      rw [ih frag f (fun r hr => hlen r (by simp [hr])) hfrag hflen]
      simp

theorem foldl_satMul_range (n : Nat) :
    (factRange n).foldl satMul 1 = specSatFact n := by
  induction n with
  | zero => rfl
  | succ n ih =>
    have hr : factRange (n + 1) = factRange n ++ [(n : Int) + 1] := by
      simp only [factRange, List.range'_1_concat 1 n, List.map_append,
        List.map_cons, List.map_nil]
      norm_num [Nat.add_comm]
    rw [hr, List.foldl_append, ih]
    rfl

theorem digit_toNat {d : Char} (h : d.isDigit = true) :
    48 ≤ d.toNat ∧ d.toNat ≤ 57 := by
  simp [Char.isDigit] at h
  obtain ⟨h1, h2⟩ := h
  exact ⟨h1, h2⟩

theorem digit_not_ws {d : Char} (h : d.isDigit = true) : isWsC d = false := by
  have hn := digit_toNat h
  simp [isWsC, wsCodes]
  omega

theorem digit_not_minus {d : Char} (h : d.isDigit = true) : ¬ d = '-' := by
  intro he
  subst he
  exact absurd h (by decide)

theorem opC_cases {c : Char} (h : isOpC c = true) :
    (((((((c = '+' ∨ c = '-') ∨ c = '*') ∨ c = '×') ∨ c = 'x') ∨ c = '/') ∨
      c = '÷') ∨ c = '%') ∨ c = '!' := by
  simpa [isOpC] using h

theorem opC_not_digit {c : Char} (h : isOpC c = true) : c.isDigit = false := by
  rcases opC_cases h with
    (((((((rfl | rfl) | rfl) | rfl) | rfl) | rfl) | rfl) | rfl) | rfl <;> decide

theorem opC_not_ws {c : Char} (h : isOpC c = true) : isWsC c = false := by
  rcases opC_cases h with
    (((((((rfl | rfl) | rfl) | rfl) | rfl) | rfl) | rfl) | rfl) | rfl <;> decide

theorem takeWhile_digits_append (ds r : List Char)
    (h : ∀ c ∈ ds, c.isDigit = true) (hr : headNotDigit r = true) :
    (ds ++ r).takeWhile Char.isDigit = ds ∧
    (ds ++ r).dropWhile Char.isDigit = r := by
  induction ds with
  | nil =>
    cases r with
    | nil => simp
    | cons c t =>
      have : c.isDigit = false := by simpa [headNotDigit] using hr
      simp [List.takeWhile_cons, List.dropWhile_cons, this]
  | cons d ds ih =>
    have hd : d.isDigit = true := h d (by simp)
    have ihr := ih fun c hc => h c (by simp [hc])
    simp [List.takeWhile_cons, List.dropWhile_cons, hd, ihr.1, ihr.2]

/-- The greedy integer fragment consumes exactly an integer token when the
remainder does not continue with a digit. -/
theorem takeInt_intTok (tok r : List Char) (ht : isIntTok tok)
    (hr : headNotDigit r = true) :
    takeInt (tok ++ r) = some (tok, r) := by
  rcases ht with ⟨hh, hne, hall⟩ | ⟨hne, hall⟩
  · match tok with
    | [] => simp at hh
    | c :: ds =>
      have hc : c = '-' := by simpa using hh
      subst hc
      have hds : ds ≠ [] := by simpa using hne
      have hall2 : ∀ c ∈ ds, c.isDigit = true := by simpa using hall
      have htw := takeWhile_digits_append ds r hall2 hr
      have hh2 : (('-' :: ds) ++ r).head? = some '-' := by simp
      have ht2 : (('-' :: ds) ++ r).tail = ds ++ r := by simp
      rw [takeInt, if_pos hh2, ht2, htw.1, htw.2, if_neg hds]
  · match tok with
    | [] => simp at hne
    | c :: ds =>
      have hc : c.isDigit = true := hall c (by simp)
      have htw := takeWhile_digits_append (c :: ds) r hall hr
      have hh2 : ((c :: ds) ++ r).head? ≠ some '-' := by
        simp only [List.cons_append, List.head?_cons, ne_eq, Option.some.injEq]
        exact digit_not_minus hc
      rw [takeInt, if_neg hh2, htw.1, htw.2, if_neg (by simp)]

theorem dropWs_intTok (tok r : List Char) (ht : isIntTok tok) :
    dropWs (tok ++ r) = tok ++ r := by
  rcases ht with ⟨hh, _, _⟩ | ⟨hne, hall⟩
  · match tok with
    | [] => simp at hh
    | c :: ds =>
      have hc : c = '-' := by simpa using hh
      subst hc
      simp [dropWs, List.dropWhile_cons, (by decide : isWsC '-' = false)]
  · match tok with
    | [] => simp at hne
    | c :: ds =>
      have hc : c.isDigit = true := hall c (by simp)
      simp [dropWs, List.dropWhile_cons, digit_not_ws hc]

/-- The regex captures of an integer token, an operator character and a
second integer token, with no surrounding whitespace. -/
theorem regexCapture_op_tok (tok tok2 : List Char) (c : Char)
    (ht : isIntTok tok) (hc : isOpC c = true) (ht2 : isIntTok tok2) :
    regexCapture (tok ++ c :: tok2) = some (tok, c, some tok2) := by
  have h1 : dropWs (tok ++ c :: tok2) = tok ++ c :: tok2 := dropWs_intTok _ _ ht
  have h2 : takeInt (tok ++ c :: tok2) = some (tok, c :: tok2) :=
    takeInt_intTok _ _ ht (by simp [headNotDigit, opC_not_digit hc])
  have h3 : dropWs (c :: tok2) = c :: tok2 := by
    simp [dropWs, List.dropWhile_cons, opC_not_ws hc]
  have h4 : dropWs tok2 = tok2 := by simpa using dropWs_intTok tok2 [] ht2
  have h5 : takeInt tok2 = some (tok2, []) := by
    simpa using takeInt_intTok tok2 [] ht2 rfl
  unfold regexCapture
  rw [h1, h2]
  simp only [h3, h4, h5, hc, if_pos rfl]
  simp [dropWs]

/-- The regex captures of an integer token and a final operator character,
with no second token and no surrounding whitespace. -/
theorem regexCapture_op_end (tok : List Char) (c : Char)
    (ht : isIntTok tok) (hc : isOpC c = true) :
    regexCapture (tok ++ [c]) = some (tok, c, none) := by
  have h1 : dropWs (tok ++ [c]) = tok ++ [c] := dropWs_intTok _ _ ht
  have h2 : takeInt (tok ++ [c]) = some (tok, [c]) :=
    takeInt_intTok _ _ ht (by simp [headNotDigit, opC_not_digit hc])
  have h3 : dropWs [c] = [c] := by
    simp [dropWs, List.dropWhile_cons, opC_not_ws hc]
  unfold regexCapture
  rw [h1, h2]
  simp only [h3, hc, if_pos rfl]
  simp [takeInt, dropWs]

/-- Claim C1, amended.  For in-range signed 8-bit operands, reduce returns
the exact mathematical result widened to 64 bits for Sum, Sub and Mul, and
the exact truncating quotient and remainder for Div and Rem with a non-zero
divisor — except at the operand pair a = -128, b = -1, where the 8-bit
division and remainder overflow and the code panics instead (see the
counterexample). -/
theorem C1_reduce_exact (a b : Int)
    (ha1 : -128 ≤ a) (ha2 : a ≤ 127) (hb1 : -128 ≤ b) (hb2 : b ≤ 127) :
    reduce (.Sum a b) = .ok (a + b) ∧
    reduce (.Sub a b) = .ok (a - b) ∧
    reduce (.Mul a b) = .ok (a * b) ∧
    (b ≠ 0 → ¬(a = -128 ∧ b = -1) →
      reduce (.Div a b) = .ok (a.tdiv b) ∧
      reduce (.Rem a b) = .ok (a.tmod b)) := by
  refine ⟨rfl, rfl, rfl, fun hb hov => ⟨?_, ?_⟩⟩ <;>
    · simp only [reduce]
      rw [if_neg (not_or.mpr ⟨hb, hov⟩)]

theorem C1_reduce_exact_witness :
    reduce (.Sum 127 127) = .ok 254 ∧
    reduce (.Mul (-128) (-128)) = .ok 16384 ∧
    reduce (.Div 127 3) = .ok 42 ∧
    reduce (.Rem 127 3) = .ok 1 :=
  ⟨(C1_reduce_exact 127 127 (by decide) (by decide) (by decide) (by decide)).1,
   (C1_reduce_exact (-128) (-128) (by decide) (by decide) (by decide)
      (by decide)).2.2.1,
   ((C1_reduce_exact 127 3 (by decide) (by decide) (by decide)
      (by decide)).2.2.2 (by decide) (by decide)).1,
   ((C1_reduce_exact 127 3 (by decide) (by decide) (by decide)
      (by decide)).2.2.2 (by decide) (by decide)).2⟩

/-- Claim C1, counterexample.  At Div with operands -128 and -1 (valid
in-range operands with a non-zero divisor) the code panics with an 8-bit
overflow instead of returning the exact quotient 128, and likewise for Rem
instead of returning 0. -/
theorem C1_div_min_cex :
    reduce (.Div (-128) (-1)) = .panic ∧
    reduce (.Div (-128) (-1)) ≠ .ok 128 ∧
    reduce (.Rem (-128) (-1)) = .panic := by
  refine ⟨rfl, by decide, rfl⟩

/-- Claim C2.  The TLV decoder is not total: for any buffer of length at
least 2 whose length byte is 254 or 255, the u8 addition bytes[1] + 2 in
the decode guard overflows and the program panics (at the add in debug
builds, at the wrapped slice bound in release builds) instead of returning
the WrongFormat error; the buffers [1, 255] and [1, 254] witness it, while
a length byte of 253 still reaches WrongFormat as documented. -/
theorem C2_decode_panics_on_large_length :
    tlvTryFrom [1, 255] = .panic ∧
    tlvTryFrom [1, 254] = .panic ∧
    tlvTryFrom [1, 253] = .err .WrongFormat := by
  refine ⟨rfl, rfl, rfl⟩

/-- Claim C4, amended.  Iterating over the concatenation of any sequence of
valid encoded records, followed by any strict prefix of a further valid
record, yields exactly the original records in order, with no extra item
and no surfaced error — provided every length byte involved is at most 253;
a record whose length byte is 254 or 255 makes the decoder panic instead
(see the counterexample and claim C2). -/
theorem C4_stream_iterator (rs : List (TlvType × List Nat))
    (hrs : ∀ r ∈ rs, r.2.length ≤ 253)
    (tf : TlvType) (df : List Nat) (k : Nat)
    (hdf : df.length ≤ 253) (hk : k < 2 + df.length) :
    tlvIterate
        ((rs.map fun r => encBytes r.1 r.2).flatten ++ (encBytes tf df).take k) =
      some (rs.map fun r => (⟨r.1, r.2.length, r.2⟩ : TlvRec)) :=
  tlvIterGo_stream rs _ _ hrs (tlvTryFrom_truncated tf df k hdf hk) (le_refl _)

theorem C4_stream_iterator_witness :
    tlvIterate [1, 2, 5, 3, 2, 2, 9, 4, 1, 1] =
      some [⟨.Sum, 2, [5, 3]⟩, ⟨.Sub, 2, [9, 4]⟩] := by
  have h := C4_stream_iterator [(.Sum, [5, 3]), (.Sub, [9, 4])] (by decide)
    .Sum [7] 2 (by decide) (by decide)
  exact h

set_option maxRecDepth 4000 in
/-- Claim C4, counterexample.  A single valid encoded record whose payload
has 254 bytes makes the stream iterator panic (modelled none) instead of
yielding that record. -/
theorem C4_length254_cex :
    tlvEncode .Sum (List.replicate 254 0) =
      .ok (1 :: 254 :: List.replicate 254 0) ∧
    tlvIterate (1 :: 254 :: List.replicate 254 0) = none ∧
    tlvIterate (1 :: 254 :: List.replicate 254 0) ≠
      some [⟨.Sum, 254, List.replicate 254 0⟩] := by
  refine ⟨rfl, rfl, by decide⟩

/-- Claim C6.  Factorial evaluation saturates: Fact 0 evaluates to 1; for
every positive 8-bit operand the result is the product 1 times 2 times ...
times a folded with i64::saturating_mul, as written in the specification;
and Fact 20 evaluates exactly to 2432902008176640000. -/
theorem C6_fact_saturating :
    reduce (.Fact 0) = .ok 1 ∧
    (∀ a : Int, 0 < a → a ≤ 127 →
      reduce (.Fact a) = .ok (specSatFact a.toNat)) ∧
    reduce (.Fact 20) = .ok 2432902008176640000 := by
  refine ⟨rfl, fun a h1 h2 => ?_, by decide⟩
  simp only [reduce]
  rw [if_neg (by omega), if_pos h1, foldl_satMul_range]

theorem C6_fact_saturating_witness :
    reduce (.Fact 5) = .ok (specSatFact 5) ∧ specSatFact 5 = 120 :=
  ⟨C6_fact_saturating.2.1 5 (by decide) (by decide), by decide⟩

theorem tlvEncodeUnwrap_eq (t : TlvType) (d : List Nat) (h : d.length ≤ 255) :
    tlvEncodeUnwrap t d = encBytes t d := by
  simp [tlvEncodeUnwrap, tlvEncode, h, encBytes]

theorem tlvTryFrom_encBytes (t : TlvType) (d : List Nat) (hd : d.length ≤ 253) :
    tlvTryFrom (encBytes t d) = .ok ⟨t, d.length, d⟩ := by
  have h := tlvTryFrom_encoded t d [] hd
  simpa [encBytes] using h

/-- Claim C3.  Decoding the bytes produced by encode yields the original
Operation, for every variant and every valid operand assignment: any
signed 8-bit operands for Sum, Sub, Mul and Fact, and a non-zero second
operand for Div and Rem. -/
theorem C3_round_trip (op : Operation) (h : validOp op) :
    ∃ t : TlvRec, tlvTryFrom (opEncode op) = TlvResult.ok t ∧
      operationTryFrom t = .ok op := by
  cases op with
  | Sum a b =>
    obtain ⟨⟨ha1, ha2⟩, hb1, hb2⟩ := h
    refine ⟨⟨.Sum, 2, [i8ToByte a, i8ToByte b]⟩, ?_, ?_⟩
    · show tlvTryFrom (tlvEncodeUnwrap .Sum [i8ToByte a, i8ToByte b]) = _
      rw [tlvEncodeUnwrap_eq _ _ (by simp)]
      simpa using tlvTryFrom_encBytes .Sum [i8ToByte a, i8ToByte b] (by simp)
    · simp [operationTryFrom, byteToI8_i8ToByte ha1 ha2,
        byteToI8_i8ToByte hb1 hb2]
  | Sub a b =>
    obtain ⟨⟨ha1, ha2⟩, hb1, hb2⟩ := h
    refine ⟨⟨.Sub, 2, [i8ToByte a, i8ToByte b]⟩, ?_, ?_⟩
    · show tlvTryFrom (tlvEncodeUnwrap .Sub [i8ToByte a, i8ToByte b]) = _
      rw [tlvEncodeUnwrap_eq _ _ (by simp)]
      simpa using tlvTryFrom_encBytes .Sub [i8ToByte a, i8ToByte b] (by simp)
    · simp [operationTryFrom, byteToI8_i8ToByte ha1 ha2,
        byteToI8_i8ToByte hb1 hb2]
  | Mul a b =>
    obtain ⟨⟨ha1, ha2⟩, hb1, hb2⟩ := h
    refine ⟨⟨.Mul, 2, [i8ToByte a, i8ToByte b]⟩, ?_, ?_⟩
    · show tlvTryFrom (tlvEncodeUnwrap .Mul [i8ToByte a, i8ToByte b]) = _
      rw [tlvEncodeUnwrap_eq _ _ (by simp)]
      simpa using tlvTryFrom_encBytes .Mul [i8ToByte a, i8ToByte b] (by simp)
    · simp [operationTryFrom, byteToI8_i8ToByte ha1 ha2,
        byteToI8_i8ToByte hb1 hb2]
  | Div a b =>
    obtain ⟨⟨ha1, ha2⟩, ⟨hb1, hb2⟩, hbz⟩ := h
    refine ⟨⟨.Div, 2, [i8ToByte a, i8ToByte b]⟩, ?_, ?_⟩
    · show tlvTryFrom (tlvEncodeUnwrap .Div [i8ToByte a, i8ToByte b]) = _
      rw [tlvEncodeUnwrap_eq _ _ (by simp)]
      simpa using tlvTryFrom_encBytes .Div [i8ToByte a, i8ToByte b] (by simp)
    · simp [operationTryFrom, byteToI8_i8ToByte ha1 ha2,
        byteToI8_i8ToByte hb1 hb2, hbz]
  | Rem a b =>
    obtain ⟨⟨ha1, ha2⟩, ⟨hb1, hb2⟩, hbz⟩ := h
    refine ⟨⟨.Rem, 2, [i8ToByte a, i8ToByte b]⟩, ?_, ?_⟩
    · show tlvTryFrom (tlvEncodeUnwrap .Rem [i8ToByte a, i8ToByte b]) = _
      rw [tlvEncodeUnwrap_eq _ _ (by simp)]
      simpa using tlvTryFrom_encBytes .Rem [i8ToByte a, i8ToByte b] (by simp)
    · simp [operationTryFrom, byteToI8_i8ToByte ha1 ha2,
        byteToI8_i8ToByte hb1 hb2, hbz]
  | Fact a =>
    obtain ⟨ha1, ha2⟩ := h
    refine ⟨⟨.Fact, 1, [i8ToByte a]⟩, ?_, ?_⟩
    · show tlvTryFrom (tlvEncodeUnwrap .Fact [i8ToByte a]) = _
      rw [tlvEncodeUnwrap_eq _ _ (by simp)]
      simpa using tlvTryFrom_encBytes .Fact [i8ToByte a] (by simp)
    · simp [operationTryFrom, byteToI8_i8ToByte ha1 ha2]

theorem C3_round_trip_witness :
    ∃ t : TlvRec, tlvTryFrom (opEncode (.Div (-7) 3)) = TlvResult.ok t ∧
      operationTryFrom t = .ok (.Div (-7) 3) :=
  C3_round_trip (.Div (-7) 3)
    ⟨⟨by decide, by decide⟩, ⟨by decide, by decide⟩, by decide⟩

/-- Claim C5.  A zero divisor is rejected at construction time, never at
evaluation time: a Div or Rem record of length 2 whose second payload byte
is 0 fails to convert with InvalidParameter; a text of an integer, a
division or remainder operator and the digit 0 fails to parse with
InvalidParameter; and every Operation produced by either construction path
carries a non-zero divisor, so the divisor of every evaluated Div or Rem is
non-zero. -/
theorem C5_zero_divisor_rejected :
    (∀ tg x, (tg = TlvType.Div ∨ tg = TlvType.Rem) →
      operationTryFrom ⟨tg, 2, [x, 0]⟩ = .error .InvalidParameter) ∧
    (∀ tok a c, isIntTok tok → parseI8 tok = .ok a →
      (c = '/' ∨ c = '÷' ∨ c = '%') →
      fromStr (tok ++ [c, '0']) = .error .InvalidParameter) ∧
    (∀ t op, operationTryFrom t = .ok op → divisorNonzero op) ∧
    (∀ s op, fromStr s = .ok op → divisorNonzero op) := by
  refine ⟨?_, ?_, ?_, ?_⟩
  · intro tg x htg
    rcases htg with rfl | rfl <;> simp [operationTryFrom, byteToI8]
  · intro tok a c ht hp hc
    have hcop : isOpC c = true := by rcases hc with rfl | rfl | rfl <;> decide
    have hcap : regexCapture (tok ++ c :: ['0']) = some (tok, c, some ['0']) :=
      regexCapture_op_tok tok ['0'] c ht hcop
        (by right; exact ⟨by decide, by decide⟩)
    show fromStr (tok ++ c :: ['0']) = _
    unfold fromStr
    simp only [hcap, hp]
    rcases hc with rfl | rfl | rfl <;> simp [parseI8, digitsToNat, digitVal]
  · intro t op h
    rcases t with ⟨tag, len, data⟩
    cases tag <;> simp only [operationTryFrom] at h <;> repeat' split at h
    all_goals first
      | (injection h with h2; subst h2; trivial)
      | exact absurd h (by simp)
  · intro s op h
    unfold fromStr at h
    repeat' split at h
    all_goals first
      | (injection h with h2; subst h2; trivial)
      | exact absurd h (by simp)

theorem C5_zero_divisor_rejected_witness :
    operationTryFrom ⟨TlvType.Div, 2, [3, 0]⟩ = .error .InvalidParameter ∧
    fromStr ['3', '/', '0'] = .error .InvalidParameter ∧
    divisorNonzero (Operation.Div 3 7) ∧
    divisorNonzero (Operation.Rem 8 3) :=
  ⟨C5_zero_divisor_rejected.1 .Div 3 (Or.inl rfl),
   C5_zero_divisor_rejected.2.1 ['3'] 3 '/'
     (by right; exact ⟨by decide, by decide⟩) (by decide) (Or.inl rfl),
   C5_zero_divisor_rejected.2.2.1 ⟨.Div, 2, [3, 7]⟩ (Operation.Div 3 7)
     (by decide),
   C5_zero_divisor_rejected.2.2.2 ['8', '%', '3'] (Operation.Rem 8 3)
     (by decide)⟩

/-- Claim C7, amended.  A Fact record whose payload byte has the sign bit
set does convert successfully — the byte is reinterpreted as the negative
signed value — and the domain violation is caught at evaluation time
instead: reduce returns the WrongDomain error for it.  So Evaluate is
reached, but it fails safely with a domain error rather than computing a
negative factorial. -/
theorem C7_negative_fact_decodes (x : Nat) (h1 : 128 ≤ x) (h2 : x ≤ 255) :
    operationTryFrom ⟨.Fact, 1, [x]⟩ = .ok (.Fact ((x : Int) - 256)) ∧
    reduce (.Fact ((x : Int) - 256)) = .err .WrongDomain := by
  constructor
  · have hb : byteToI8 x = (x : Int) - 256 := by rw [byteToI8, if_neg (by omega)]
    simp [operationTryFrom, hb]
  · simp only [reduce]
    rw [if_neg (by omega), if_neg (by omega)]

theorem C7_negative_fact_decodes_witness :
    operationTryFrom ⟨.Fact, 1, [200]⟩ = .ok (.Fact ((200 : Int) - 256)) ∧
    reduce (.Fact ((200 : Int) - 256)) = .err .WrongDomain :=
  C7_negative_fact_decodes 200 (by decide) (by decide)

/-- Claim C7, counterexample.  Conversion does not fail: the Fact record
with payload byte 255 converts successfully to Fact of -1. -/
theorem C7_negative_fact_cex :
    operationTryFrom ⟨TlvType.Fact, 1, [255]⟩ = .ok (.Fact (-1)) := by
  decide

/-- Claim C8, amended.  Parsing a negative integer followed by the
factorial operator fails, but with the UnsupportedOperation error carrying
the operator text — the factorial arm requires a non-negative operand and
the match falls through to the catch-all arm — not with the
domain/invalid-parameter kind used by the binary decode path. -/
theorem C8_neg_fact_parse (tok : List Char) (a : Int)
    (ht : isIntTok tok) (hp : parseI8 tok = .ok a) (hneg : a < 0) :
    fromStr (tok ++ ['!']) = .error (.UnsupportedOperation "!") := by
  have hcap : regexCapture (tok ++ ['!']) = some (tok, '!', none) :=
    regexCapture_op_end tok '!' ht (by decide)
  unfold fromStr
  simp only [hcap, hp]
  have hna : ¬ (0 ≤ a) := by omega
  simp [hna]

theorem C8_neg_fact_parse_witness :
    fromStr ['-', '1', '!'] = .error (.UnsupportedOperation "!") := by
  have h := C8_neg_fact_parse ['-', '1'] (-1) (by decide) (by decide) (by decide)
  exact h

/-- Claim C8, counterexample.  Parsing the text of -1 factorial does fail,
but not with the invalid-parameter kind, nor with the WrongDomain kind the
evaluation path uses for a negative factorial: it fails with
UnsupportedOperation. -/
theorem C8_neg_fact_parse_cex :
    fromStr ['-', '1', '!'] ≠ .error .InvalidParameter ∧
    fromStr ['-', '1', '!'] ≠ .error .WrongDomain ∧
    fromStr ['-', '1', '!'] = .error (.UnsupportedOperation "!") := by
  decide

/-- Claim C9, amended.  A text the regex rejects outright — no leading
integer or no operator — fails with the generic Parse error; but a matched
text whose operator-arity combination is wrong fails with
UnsupportedOperation carrying the operator text instead: a binary operator
with its required second integer missing, or the factorial operator
followed by a forbidden second integer. -/
theorem C9_malformed_shapes :
    (∀ s, regexCapture s = none → fromStr s = .error .Parse) ∧
    (∀ tok a c, isIntTok tok → parseI8 tok = .ok a →
      ((((((c = '+' ∨ c = '-') ∨ c = '*') ∨ c = '×') ∨ c = 'x') ∨ c = '/') ∨
        c = '÷') ∨ c = '%' →
      fromStr (tok ++ [c]) = .error (.UnsupportedOperation (String.mk [c]))) ∧
    (∀ tokA a tokB b, isIntTok tokA → parseI8 tokA = .ok a →
      isIntTok tokB → parseI8 tokB = .ok b →
      fromStr (tokA ++ '!' :: tokB) = .error (.UnsupportedOperation "!")) := by
  refine ⟨?_, ?_, ?_⟩
  · intro s h
    unfold fromStr
    rw [h]
  · intro tok a c ht hp hc
    have hcop : isOpC c = true := by
      rcases hc with ((((((rfl | rfl) | rfl) | rfl) | rfl) | rfl) | rfl) |
        rfl <;> decide
    have hcap : regexCapture (tok ++ [c]) = some (tok, c, none) :=
      regexCapture_op_end tok c ht hcop
    unfold fromStr
    simp only [hcap, hp]
    rcases hc with ((((((rfl | rfl) | rfl) | rfl) | rfl) | rfl) | rfl) |
      rfl <;> simp
  · intro tokA a tokB b ht hp ht2 hp2
    have hcap : regexCapture (tokA ++ '!' :: tokB) = some (tokA, '!', some tokB) :=
      regexCapture_op_tok tokA tokB '!' ht (by decide) ht2
    unfold fromStr
    simp only [hcap, hp, hp2]
    simp

theorem C9_malformed_shapes_witness :
    fromStr ['a'] = .error .Parse ∧
    fromStr ['7', '%'] = .error (.UnsupportedOperation "%") ∧
    fromStr ['7', '!', '2'] = .error (.UnsupportedOperation "!") := by
  refine ⟨C9_malformed_shapes.1 ['a'] (by decide), ?_, ?_⟩
  · have h := C9_malformed_shapes.2.1 ['7'] 7 '%' (by decide) (by decide)
      (Or.inr rfl)
    exact h
  · have h := C9_malformed_shapes.2.2 ['7'] 7 ['2'] 2 (by decide) (by decide)
      (by decide) (by decide)
    exact h

/-- Claim C9, counterexample.  The forbidden-second-integer shape 5
factorial 3 and the missing-second-integer shape 5 plus fail with
UnsupportedOperation, not with the generic Parse error the claim states. -/
theorem C9_forbidden_second_cex :
    fromStr ['5', '!', '3'] = .error (.UnsupportedOperation "!") ∧
    fromStr ['5', '!', '3'] ≠ .error .Parse ∧
    fromStr ['5', '+'] = .error (.UnsupportedOperation "+") ∧
    fromStr ['5', '+'] ≠ .error .Parse := by
  decide

theorem beBytes_round (n : Int) (h1 : -(2 ^ 63) ≤ n) (h2 : n < 2 ^ 63) :
    beBytesToI64 (i64ToBeBytes n) = n := by
  unfold beBytesToI64 i64ToBeBytes
  simp only [List.foldl_cons, List.foldl_nil]
  omega

/-- Claim C10.  Answer encode and decode are mutually inverse over the TLV
framing: encoding a value produces exactly the record with tag byte 16,
length byte 8 and the eight big-endian payload bytes; a well-formed Tlv
record decodes successfully exactly when its tag is Numi64 and its length
is 8, failing with the Generic error otherwise; and decoding the encoded
bytes recovers the original value. -/
theorem C10_answer_round_trip (n : Int)
    (h1 : -(2 ^ 63) ≤ n) (h2 : n < 2 ^ 63) :
    answerEncode n = 16 :: 8 :: i64ToBeBytes n ∧
    (∃ t : TlvRec, tlvTryFrom (answerEncode n) = TlvResult.ok t ∧
      answerTryFrom t = .ok n) ∧
    (∀ t : TlvRec, t.data.length = t.length →
      ((∃ m, answerTryFrom t = .ok m) ↔ (t.tag = .Numi64 ∧ t.length = 8)) ∧
      (¬ (t.tag = .Numi64 ∧ t.length = 8) →
        answerTryFrom t = .error .Generic)) := by
  have henc : answerEncode n = encBytes .Numi64 (i64ToBeBytes n) :=
    tlvEncodeUnwrap_eq _ _ (by simp [i64ToBeBytes])
  have hlen : (i64ToBeBytes n).length = 8 := by simp [i64ToBeBytes]
  refine ⟨?_, ?_, ?_⟩
  · rw [henc, encBytes, hlen]
    rfl
  · refine ⟨⟨.Numi64, (i64ToBeBytes n).length, i64ToBeBytes n⟩, ?_, ?_⟩
    · rw [henc]
      exact tlvTryFrom_encBytes _ _ (by omega)
    · show answerTryFrom _ = _
      simp [answerTryFrom, hlen, beBytes_round n h1 h2]
  · intro t wf
    refine ⟨⟨?_, ?_⟩, ?_⟩
    · intro hm
      obtain ⟨m, hm⟩ := hm
      by_contra hc
      unfold answerTryFrom at hm
      rw [if_neg hc] at hm
      cases hm
    · intro hcond
      refine ⟨beBytesToI64 t.data, ?_⟩
      unfold answerTryFrom
      rw [if_pos hcond, if_pos (by rw [wf, hcond.2])]
    · intro hc
      unfold answerTryFrom
      rw [if_neg hc]

theorem C10_answer_round_trip_witness :
    answerEncode (-2) = 16 :: 8 :: i64ToBeBytes (-2) ∧
    (∃ t : TlvRec, tlvTryFrom (answerEncode (-2)) = TlvResult.ok t ∧
      answerTryFrom t = .ok (-2)) :=
  ⟨(C10_answer_round_trip (-2) (by decide) (by decide)).1,
   (C10_answer_round_trip (-2) (by decide) (by decide)).2.1⟩
